import Mathlib

/-!
Verification of the error taxonomy of the grpc binding layer
(`src/error.rs`): the `Error` enum, its `Display`/`Debug` rendering, the
`description` and `cause` accessors of its `std::error::Error`
implementation, and the two codec-error conversions.

The embedding is shallow: renderings are modelled as the character lists
the derived `Debug` formatter writes, machine integers as `Nat`, and the
type-erased boxed cause (`Box<dyn error::Error + Send + Sync>`) as a record
of the only behaviours such an object exposes to this module: its `Debug`
rendering and its `Display` rendering.
-/

namespace GrpcErrSpec

/-- The behaviours of a boxed `dyn error::Error + Send + Sync` trait object
that the code under `src/error.rs` can observe: its `Debug` rendering (what
`{:?}` prints, used by the derived `Debug` of `Error::Codec`) and its
`Display` rendering (what `{}` prints). Two distinct trait objects may
agree on either rendering. -/
structure DynError where
  debugRepr : String
  displayRepr : String
deriving DecidableEq

/-- Modelled from the spec: the native call-submission status code
(`grpc_call_error` from the native engine's bindings; the binding crate is
outside `src/`). The variant names follow the native engine's call-error
enumeration; its derived `Debug` prints the bare variant name. -/
inductive GrpcCallError where
  | GRPC_CALL_OK
  | GRPC_CALL_ERROR
  | GRPC_CALL_ERROR_NOT_ON_SERVER
  | GRPC_CALL_ERROR_NOT_ON_CLIENT
  | GRPC_CALL_ERROR_ALREADY_ACCEPTED
  | GRPC_CALL_ERROR_ALREADY_INVOKED
  | GRPC_CALL_ERROR_NOT_INVOKED
  | GRPC_CALL_ERROR_ALREADY_FINISHED
  | GRPC_CALL_ERROR_TOO_MANY_OPERATIONS
  | GRPC_CALL_ERROR_INVALID_FLAGS
  | GRPC_CALL_ERROR_INVALID_METADATA
  | GRPC_CALL_ERROR_INVALID_MESSAGE
  | GRPC_CALL_ERROR_NOT_SERVER_COMPLETION_QUEUE
  | GRPC_CALL_ERROR_BATCH_TOO_BIG
  | GRPC_CALL_ERROR_PAYLOAD_TYPE_MISMATCH
  | GRPC_CALL_ERROR_COMPLETION_QUEUE_SHUTDOWN
deriving DecidableEq

/-- Modelled from the spec: an RPC status is "a (code, optional message)
pair" (`RpcStatus` lives in `src/call.rs`, which is not under `src/`).
The status code is carried as a natural number, the optional message as
`details`. -/
structure RpcStatus where
  status : Nat
  details : Option String
deriving DecidableEq

/-- The `Error` enum of `src/error.rs`: one variant per failure source,
payloads as declared there (`BindFail` carries a host string and a `u16`
port, modelled as `Nat`). -/
inductive Error where
  | Codec (cause : DynError)
  | CallFailure (err : GrpcCallError)
  | RpcFailure (status : RpcStatus)
  | RpcFinished (status : Option RpcStatus)
  | RemoteStopped
  | ShutdownFailed
  | BindFail (host : String) (port : Nat)
  | QueueShutdown
  | GoogleAuthenticationFailed
  | InvalidMetadata (msg : String)
deriving DecidableEq

namespace Error

/-- `Error::description` from the `impl error::Error for Error` block of
`src/error.rs`, lines 46-59: a fixed string per variant, payload ignored. -/
def description : Error → String
  | .Codec _ => "gRPC Codec Error"
  | .CallFailure _ => "gRPC Call Error"
  | .RpcFailure _ => "gRPC Request Error"
  | .RpcFinished _ => "gRPC Finish Error"
  | .RemoteStopped => "Remote is stopped."
  | .ShutdownFailed => "Failed to shutdown."
  | .BindFail _ _ => "gRPC Bind Error"
  | .QueueShutdown => "gRPC completion queue shutdown"
  | .GoogleAuthenticationFailed => "Could not create google default credentials."
  | .InvalidMetadata _ => "invalid format of metadata"

/-- `Error::cause` from `src/error.rs`, lines 61-66: the boxed cause for
`Codec`, `None` for every other variant. -/
def cause : Error → Option DynError
  | .Codec e => some e
  | _ => none

/-- `Error::source`: the impl block of `src/error.rs` leaves `source`
unimplemented (the TODO at lines 68-69), so the trait's default body is in
force, and the default `std::error::Error::source` returns `None` for
every value. -/
def source (_ : Error) : Option DynError := none

end Error

/-- Modelled from the spec: a codec-library error of the protobuf family
(`protobuf::ProtobufError`, an external crate). Only its renderings are
observable through the boxed cause. -/
structure ProtobufError where
  debugRepr : String
  displayRepr : String
deriving DecidableEq

/-- Modelled from the spec: a codec-library error of the prost family
(`prost::DecodeError`, an external crate). Only its renderings are
observable through the boxed cause. -/
structure DecodeError where
  debugRepr : String
  displayRepr : String
deriving DecidableEq

/-- `Box::new(e)` coercing a protobuf codec error to the trait object: the
box changes nothing observable, both renderings delegate to `e`. -/
def ProtobufError.box (e : ProtobufError) : DynError :=
  ⟨e.debugRepr, e.displayRepr⟩

/-- `Box::new(e)` coercing a prost decode error to the trait object. -/
def DecodeError.box (e : DecodeError) : DynError :=
  ⟨e.debugRepr, e.displayRepr⟩

/-- `impl From<ProtobufError> for Error` (`src/error.rs`, lines 72-77):
`Error::Codec(Box::new(e))`. -/
def Error.fromProtobuf (e : ProtobufError) : Error := .Codec e.box

/-- `impl From<DecodeError> for Error` (`src/error.rs`, lines 79-84):
`Error::Codec(Box::new(e))`. -/
def Error.fromDecode (e : DecodeError) : Error := .Codec e.box

/-- The `Result<T>` alias of `src/error.rs`, line 87. -/
abbrev Result (α : Type) := Except Error α

/-! ## The derived `Debug` rendering

`impl Display for Error` writes `{:?}`, i.e. exactly what the derived
`Debug` formatter produces. The functions below reconstruct that output as
a list of characters: the variant name, parentheses around the payload,
strings quoted with `escape_debug`-style escaping, integers in decimal,
`Option` as `None`/`Some(..)`, the spec-modelled `RpcStatus` in derived
struct layout. -/

/-- Decimal digit to its character. -/
def digitChar (d : Nat) : Char := Char.ofNat (48 + d)

/-- Lowercase hexadecimal digit to its character (as in `\u\x7b..\x7d`
escapes). -/
def hexDigitChar (d : Nat) : Char :=
  if d < 10 then Char.ofNat (48 + d) else Char.ofNat (87 + d)

/-- Little-endian base-`b` digits of `n`, with explicit fuel so the
definition is structural (the fuel is always instantiated at `n` itself,
which bounds the number of divisions). -/
def digitsAux (b : Nat) : Nat → Nat → List Nat
  | 0, _ => []
  | _ + 1, 0 => []
  | fuel + 1, n + 1 => ((n + 1) % b) :: digitsAux b fuel ((n + 1) / b)

/-- The decimal rendering of a natural number, as Rust's integer `Display`
prints it. -/
def natChars (n : Nat) : List Char :=
  if n = 0 then [digitChar 0] else ((digitsAux 10 n n).map digitChar).reverse

/-- The lowercase hexadecimal rendering of a natural number, as inside
Rust's `\u\x7b..\x7d` escapes. -/
def hexChars (n : Nat) : List Char :=
  if n = 0 then [hexDigitChar 0] else ((digitsAux 16 n n).map hexDigitChar).reverse

/-- One character of a string payload as `str`'s `Debug` writes it
(`char::escape_debug` with double quotes escaped, single quotes not):
quote, backslash, newline, carriage return and tab get two-character
escapes, other control characters a `\u\x7b..\x7d` escape, everything else
passes through. -/
def escapeChar (c : Char) : List Char :=
  if c = '"' then ['\\', '"']
  else if c = '\\' then ['\\', '\\']
  else if c = '\n' then ['\\', 'n']
  else if c = '\r' then ['\\', 'r']
  else if c = '\t' then ['\\', 't']
  else if c.toNat < 32 ∨ c.toNat = 127 then
    '\\' :: 'u' :: '\x7b' :: (hexChars c.toNat ++ ['\x7d'])
  else [c]

/-- The escaped body of a string payload. -/
def escChars : List Char → List Char
  | [] => []
  | c :: t => escapeChar c ++ escChars t

/-- A string payload as `Debug` writes it: quoted and escaped. -/
def strChunk (s : String) : List Char :=
  '"' :: (escChars s.data ++ ['"'])

/-- An `Option<String>` payload as `Debug` writes it. -/
def optStrChunk : Option String → List Char
  | none => "None".data
  | some s => "Some(".data ++ (strChunk s ++ [')'])

/-- The `Debug` layout of the spec-modelled `RpcStatus` struct. -/
def rpcChunk (s : RpcStatus) : List Char :=
  "RpcStatus \x7b status: ".data ++
    (natChars s.status ++ (", details: ".data ++ (optStrChunk s.details ++ " \x7d".data)))

/-- An `Option<RpcStatus>` payload as `Debug` writes it. -/
def optRpcChunk : Option RpcStatus → List Char
  | none => "None".data
  | some s => "Some(".data ++ (rpcChunk s ++ [')'])

/-- The variant name of the native status code, as its derived `Debug`
prints it. -/
def GrpcCallError.render : GrpcCallError → String
  | .GRPC_CALL_OK => "GRPC_CALL_OK"
  | .GRPC_CALL_ERROR => "GRPC_CALL_ERROR"
  | .GRPC_CALL_ERROR_NOT_ON_SERVER => "GRPC_CALL_ERROR_NOT_ON_SERVER"
  | .GRPC_CALL_ERROR_NOT_ON_CLIENT => "GRPC_CALL_ERROR_NOT_ON_CLIENT"
  | .GRPC_CALL_ERROR_ALREADY_ACCEPTED => "GRPC_CALL_ERROR_ALREADY_ACCEPTED"
  | .GRPC_CALL_ERROR_ALREADY_INVOKED => "GRPC_CALL_ERROR_ALREADY_INVOKED"
  | .GRPC_CALL_ERROR_NOT_INVOKED => "GRPC_CALL_ERROR_NOT_INVOKED"
  | .GRPC_CALL_ERROR_ALREADY_FINISHED => "GRPC_CALL_ERROR_ALREADY_FINISHED"
  | .GRPC_CALL_ERROR_TOO_MANY_OPERATIONS => "GRPC_CALL_ERROR_TOO_MANY_OPERATIONS"
  | .GRPC_CALL_ERROR_INVALID_FLAGS => "GRPC_CALL_ERROR_INVALID_FLAGS"
  | .GRPC_CALL_ERROR_INVALID_METADATA => "GRPC_CALL_ERROR_INVALID_METADATA"
  | .GRPC_CALL_ERROR_INVALID_MESSAGE => "GRPC_CALL_ERROR_INVALID_MESSAGE"
  | .GRPC_CALL_ERROR_NOT_SERVER_COMPLETION_QUEUE => "GRPC_CALL_ERROR_NOT_SERVER_COMPLETION_QUEUE"
  | .GRPC_CALL_ERROR_BATCH_TOO_BIG => "GRPC_CALL_ERROR_BATCH_TOO_BIG"
  | .GRPC_CALL_ERROR_PAYLOAD_TYPE_MISMATCH => "GRPC_CALL_ERROR_PAYLOAD_TYPE_MISMATCH"
  | .GRPC_CALL_ERROR_COMPLETION_QUEUE_SHUTDOWN => "GRPC_CALL_ERROR_COMPLETION_QUEUE_SHUTDOWN"

/-- The characters the derived `Debug` of `Error` writes
(`#[derive(Debug)]` at `src/error.rs`, line 15). The boxed cause inside
`Codec` prints whatever the trait object's own `Debug` writes, raw. -/
def Error.debugChars : Error → List Char
  | .Codec c => "Codec(".data ++ (c.debugRepr.data ++ [')'])
  | .CallFailure g => "CallFailure(".data ++ (g.render.data ++ [')'])
  | .RpcFailure s => "RpcFailure(".data ++ (rpcChunk s ++ [')'])
  | .RpcFinished o => "RpcFinished(".data ++ (optRpcChunk o ++ [')'])
  | .RemoteStopped => "RemoteStopped".data
  | .ShutdownFailed => "ShutdownFailed".data
  | .BindFail h p => "BindFail(".data ++ (strChunk h ++ (", ".data ++ (natChars p ++ [')'])))
  | .QueueShutdown => "QueueShutdown".data
  | .GoogleAuthenticationFailed => "GoogleAuthenticationFailed".data
  | .InvalidMetadata m => "InvalidMetadata(".data ++ (strChunk m ++ [')'])

/-- The `Debug` rendering of an `Error`, as a string. -/
def Error.debugRender (e : Error) : String := ⟨e.debugChars⟩

/-- `impl Display for Error` (`src/error.rs`, lines 39-43): it writes
`"\x7b:?\x7d"` of `self`, i.e. delegates to the derived `Debug`. -/
def Error.displayRender (e : Error) : String := e.debugRender

/-- An `Error` with the `Codec` cause collapsed to its `Debug` rendering:
the quotient on which the display rendering is injective (the trait object
behind the box exposes more than its `Debug` text, so the rendering cannot
distinguish causes that print alike). Every other variant is kept as is. -/
def Error.view : Error → Error
  | .Codec c => .Codec ⟨c.debugRepr, c.debugRepr⟩
  | e => e

/-- `p` is a contiguous run at the front of `l`. -/
def startsWithChars : List Char → List Char → Bool
  | [], _ => true
  | _ :: _, [] => false
  | c :: p, d :: l => c = d && startsWithChars p l

/-- `p` occurs contiguously somewhere in `l`. -/
def containsSub : List Char → List Char → Bool
  | p, [] => p.isEmpty
  | p, l@(_ :: t) => startsWithChars p l || containsSub p t

/-! ## Digit rendering facts -/

theorem digitsAux_eq {b : Nat} (hb : 1 < b) :
    ∀ fuel n, n ≤ fuel → digitsAux b fuel n = Nat.digits b n := by
  intro fuel
  induction fuel with
  | zero =>
    intro n hn
    obtain rfl : n = 0 := Nat.le_zero.mp hn
    simp [digitsAux]
  | succ f ih =>
    intro n hn
    match n with
    | 0 => simp [digitsAux]
    | m + 1 =>
      have hdiv : (m + 1) / b ≤ f :=
        Nat.le_of_lt_succ (Nat.lt_of_lt_of_le (Nat.div_lt_self (Nat.succ_pos m) hb) hn)
      rw [digitsAux, ih ((m + 1) / b) hdiv, Nat.digits_def' hb (Nat.succ_pos m)]

theorem map_digit_inj {b : Nat} {dc : Nat → Char}
    (hdc : ∀ d1, d1 < b → ∀ d2, d2 < b → dc d1 = dc d2 → d1 = d2) :
    ∀ l1 l2 : List Nat, (∀ d ∈ l1, d < b) → (∀ d ∈ l2, d < b) →
      l1.map dc = l2.map dc → l1 = l2 := by
  intro l1
  induction l1 with
  | nil =>
    intro l2 _ _ h
    cases l2 with
    | nil => rfl
    | cons d t => simp at h
  | cons d1 t1 ih =>
    intro l2 hb1 hb2 h
    cases l2 with
    | nil => simp at h
    | cons d2 t2 =>
      simp only [List.map_cons, List.cons.injEq] at h
      have hd := hdc d1 (hb1 d1 (by simp)) d2 (hb2 d2 (by simp)) h.1
      have ht := ih t2 (fun d hd => hb1 d (by simp [hd])) (fun d hd => hb2 d (by simp [hd])) h.2
      rw [hd, ht]

theorem baseChars_inj {b : Nat} (hb : 1 < b) {dc : Nat → Char}
    (hdc : ∀ d1, d1 < b → ∀ d2, d2 < b → dc d1 = dc d2 → d1 = d2) {m n : Nat}
    (h : (if m = 0 then [dc 0] else ((digitsAux b m m).map dc).reverse) =
         (if n = 0 then [dc 0] else ((digitsAux b n n).map dc).reverse)) : m = n := by
  have singleton_case : ∀ k : Nat, k ≠ 0 →
      [dc 0] = ((digitsAux b k k).map dc).reverse → False := by
    intro k hk hkeq
    rw [digitsAux_eq hb k k le_rfl] at hkeq
    have h2 : (Nat.digits b k).map dc = [dc 0] := by
      have h3 := congrArg List.reverse hkeq
      simpa using h3.symm
    have h4 : Nat.digits b k = [0] := by
      cases hdl : Nat.digits b k with
      | nil => rw [hdl] at h2; simp at h2
      | cons d t =>
        rw [hdl] at h2
        simp only [List.map_cons, List.cons.injEq] at h2
        have hlt : d < b := Nat.digits_lt_base hb (by rw [hdl]; simp)
        have hd0 : d = 0 := hdc d hlt 0 (Nat.lt_of_lt_of_le Nat.zero_lt_one (Nat.le_of_lt hb)) h2.1
        have ht : t = [] := List.map_eq_nil_iff.mp h2.2
        rw [hd0, ht]
    have h5 : k = 0 := by
      have h6 := Nat.ofDigits_digits b k
      rw [h4] at h6
      simpa [Nat.ofDigits] using h6.symm
    exact hk h5
  by_cases hm : m = 0 <;> by_cases hn : n = 0
  · exact hm.trans hn.symm
  · rw [if_pos hm, if_neg hn] at h
    exact (singleton_case n hn h).elim
  · rw [if_neg hm, if_pos hn] at h
    exact (singleton_case m hm h.symm).elim
  · rw [if_neg hm, if_neg hn, digitsAux_eq hb m m le_rfl, digitsAux_eq hb n n le_rfl] at h
    have h2 : (Nat.digits b m).map dc = (Nat.digits b n).map dc := List.reverse_injective h
    have h3 := map_digit_inj hdc _ _ (fun d hd => Nat.digits_lt_base hb hd)
      (fun d hd => Nat.digits_lt_base hb hd) h2
    calc m = Nat.ofDigits b (Nat.digits b m) := (Nat.ofDigits_digits b m).symm
      _ = Nat.ofDigits b (Nat.digits b n) := by rw [h3]
      _ = n := Nat.ofDigits_digits b n

theorem digitChar_inj_lt : ∀ d1, d1 < 10 → ∀ d2, d2 < 10 →
    digitChar d1 = digitChar d2 → d1 = d2 := by decide

theorem hexDigitChar_inj_lt : ∀ d1, d1 < 16 → ∀ d2, d2 < 16 →
    hexDigitChar d1 = hexDigitChar d2 → d1 = d2 := by decide

theorem natChars_inj {m n : Nat} (h : natChars m = natChars n) : m = n :=
  baseChars_inj (by norm_num) digitChar_inj_lt h

theorem hexChars_inj {m n : Nat} (h : hexChars m = hexChars n) : m = n :=
  baseChars_inj (by norm_num) hexDigitChar_inj_lt h

theorem natChars_mem_digit {n : Nat} {c : Char} (hc : c ∈ natChars n) :
    ∃ d, d < 10 ∧ c = digitChar d := by
  unfold natChars at hc
  by_cases hn : n = 0
  · rw [if_pos hn] at hc
    simp only [List.mem_singleton] at hc
    exact ⟨0, by norm_num, hc⟩
  · rw [if_neg hn, digitsAux_eq (by norm_num) n n le_rfl] at hc
    rw [List.mem_reverse, List.mem_map] at hc
    obtain ⟨d, hd, he⟩ := hc
    exact ⟨d, Nat.digits_lt_base (by norm_num) hd, he.symm⟩

theorem hexChars_mem_digit {n : Nat} {c : Char} (hc : c ∈ hexChars n) :
    ∃ d, d < 16 ∧ c = hexDigitChar d := by
  unfold hexChars at hc
  by_cases hn : n = 0
  · rw [if_pos hn] at hc
    simp only [List.mem_singleton] at hc
    exact ⟨0, by norm_num, hc⟩
  · rw [if_neg hn, digitsAux_eq (by norm_num) n n le_rfl] at hc
    rw [List.mem_reverse, List.mem_map] at hc
    obtain ⟨d, hd, he⟩ := hc
    exact ⟨d, Nat.digits_lt_base (by norm_num) hd, he.symm⟩

theorem digitChar_avoid : ∀ d, d < 10 → digitChar d ≠ ',' ∧ digitChar d ≠ ')' := by decide

theorem hexDigitChar_avoid : ∀ d, d < 16 → hexDigitChar d ≠ '\x7d' := by decide

theorem natChars_no_comma (n : Nat) : ',' ∉ natChars n := by
  intro hc
  obtain ⟨d, hd, he⟩ := natChars_mem_digit hc
  exact (digitChar_avoid d hd).1 he.symm

theorem natChars_no_rparen (n : Nat) : ')' ∉ natChars n := by
  intro hc
  obtain ⟨d, hd, he⟩ := natChars_mem_digit hc
  exact (digitChar_avoid d hd).2 he.symm

theorem hexChars_no_rbrace (n : Nat) : '\x7d' ∉ hexChars n := by
  intro hc
  obtain ⟨d, hd, he⟩ := hexChars_mem_digit hc
  exact hexDigitChar_avoid d hd he.symm

/-! ## Splitting one escape unit off an escaped stream

`splitOne` reads the escaped text the way an inverse of `escapeChar`
would: a backslash-u-brace opens a unicode escape that runs to the next
closing brace, any other backslash pair is a two-character escape, any
other character stands for itself. Feeding it `escapeChar c ++ rest`
always returns exactly `(escapeChar c, rest)`, which makes the
concatenation of escapes uniquely decodable. -/

def splitOne : List Char → Option (List Char × List Char)
  | [] => none
  | c1 :: rest1 =>
    if c1 = '\\' then
      match rest1 with
      | [] => none
      | c2 :: rest2 =>
        if c2 = 'u' then
          match rest2 with
          | [] => none
          | c3 :: rest3 =>
            if c3 = '\x7b' then
              match rest3.dropWhile (fun c => !(c = '\x7d')) with
              | [] => none
              | c4 :: r =>
                some ('\\' :: 'u' :: '\x7b' :: (rest3.takeWhile (fun c => !(c = '\x7d')) ++ [c4]), r)
            else none
        else some ([c1, c2], rest2)
    else some ([c1], rest1)

theorem takeWhile_all_app {p : Char → Bool} :
    ∀ {l r : List Char}, (∀ c ∈ l, p c = true) →
      (l ++ r).takeWhile p = l ++ r.takeWhile p := by
  intro l
  induction l with
  | nil => intro r _; simp
  | cons c t ih =>
    intro r hall
    have hc : p c = true := hall c (by simp)
    simp only [List.cons_append, List.takeWhile_cons, hc, if_true]
    rw [ih (fun d hd => hall d (by simp [hd]))]

theorem dropWhile_all_app {p : Char → Bool} :
    ∀ {l r : List Char}, (∀ c ∈ l, p c = true) →
      (l ++ r).dropWhile p = r.dropWhile p := by
  intro l
  induction l with
  | nil => intro r _; simp
  | cons c t ih =>
    intro r hall
    have hc : p c = true := hall c (by simp)
    simp only [List.cons_append, List.dropWhile_cons, hc, if_true]
    exact ih (fun d hd => hall d (by simp [hd]))

theorem hexChars_pred (n : Nat) : ∀ c ∈ hexChars n, (!(c = '\x7d')) = true := by
  intro c hc
  obtain ⟨d, hd, he⟩ := hexChars_mem_digit hc
  simp [he, hexDigitChar_avoid d hd]

theorem splitOne_uni (body rest : List Char) (hb : ∀ c ∈ body, (!(c = '\x7d')) = true) :
    splitOne ('\\' :: 'u' :: '\x7b' :: (body ++ '\x7d' :: rest)) =
      some ('\\' :: 'u' :: '\x7b' :: (body ++ ['\x7d']), rest) := by
  simp only [splitOne]
  rw [dropWhile_all_app hb, takeWhile_all_app hb]
  simp [List.dropWhile, List.takeWhile]

/-- Reading one unit off `escapeChar c ++ rest` recovers exactly the escape
of `c` and `rest`. -/
theorem splitOne_escape (c : Char) (rest : List Char) :
    splitOne (escapeChar c ++ rest) = some (escapeChar c, rest) := by
  unfold escapeChar
  split_ifs with h1 h2 h3 h4 h5 h6
  · rfl
  · rfl
  · rfl
  · rfl
  · rfl
  · show splitOne ('\\' :: 'u' :: '\x7b' :: ((hexChars c.toNat ++ ['\x7d']) ++ rest)) = _
    rw [List.append_assoc]
    exact splitOne_uni _ _ (hexChars_pred c.toNat)
  · show splitOne (c :: rest) = some ([c], rest)
    simp only [splitOne]
    rw [if_neg h2]

theorem escapeChar_inj {c1 c2 : Char} (h : escapeChar c1 = escapeChar c2) : c1 = c2 := by
  unfold escapeChar at h
  split_ifs at h
  all_goals subst_vars
  all_goals first
    | rfl
    | exact absurd h (by decide)
    | (injection h; done)
    | (injection h with h1 h2; injection h2; done)
    | (injection h with h1 h2; injection h2 with h3 h4; exact absurd h3 (by decide))
    | (injection h with h1 h2; injection h2 with h3 h4; injection h4 with h5 h6;
       exact Char.ext (UInt32.ext (hexChars_inj (List.append_inj' h6 rfl).1)))

/-- The escape of one character followed by anything determines the
character and the remainder. -/
theorem escapeChar_split {c1 c2 : Char} {x1 x2 : List Char}
    (h : escapeChar c1 ++ x1 = escapeChar c2 ++ x2) : c1 = c2 ∧ x1 = x2 := by
  have h2 := congrArg splitOne h
  rw [splitOne_escape, splitOne_escape] at h2
  have h3 := Option.some.inj h2
  have he : escapeChar c1 = escapeChar c2 := congrArg Prod.fst h3
  exact ⟨escapeChar_inj he, congrArg Prod.snd h3⟩

/-- No escape starts with a raw double quote. -/
theorem escapeChar_head (c : Char) : ∃ hd tl, escapeChar c = hd :: tl ∧ hd ≠ '"' := by
  unfold escapeChar
  split_ifs with h1 h2 h3 h4 h5 h6
  · exact ⟨'\\', _, rfl, by decide⟩
  · exact ⟨'\\', _, rfl, by decide⟩
  · exact ⟨'\\', _, rfl, by decide⟩
  · exact ⟨'\\', _, rfl, by decide⟩
  · exact ⟨'\\', _, rfl, by decide⟩
  · exact ⟨'\\', _, rfl, by decide⟩
  · exact ⟨c, [], rfl, h1⟩

/-- An escaped body closed by its terminating quote is uniquely decodable:
equal streams mean equal source strings and equal remainders. -/
theorem escChars_split : ∀ (s1 s2 r1 r2 : List Char),
    escChars s1 ++ '"' :: r1 = escChars s2 ++ '"' :: r2 → s1 = s2 ∧ r1 = r2 := by
  intro s1
  induction s1 with
  | nil =>
    intro s2 r1 r2 h
    cases s2 with
    | nil => simpa using h
    | cons c t =>
      exfalso
      simp only [escChars, List.nil_append, List.append_assoc] at h
      obtain ⟨hd, tl, he, hne⟩ := escapeChar_head c
      rw [he] at h
      injection h with h1 _
      exact hne h1.symm
  | cons c1 t1 ih =>
    intro s2 r1 r2 h
    cases s2 with
    | nil =>
      exfalso
      simp only [escChars, List.nil_append, List.append_assoc] at h
      obtain ⟨hd, tl, he, hne⟩ := escapeChar_head c1
      rw [he] at h
      injection h with h1 _
      exact hne h1
    | cons c2 t2 =>
      simp only [escChars, List.append_assoc] at h
      obtain ⟨hc, ht⟩ := escapeChar_split h
      obtain ⟨ht2, hr⟩ := ih t2 r1 r2 ht
      exact ⟨by rw [hc, ht2], hr⟩

/-- Unique decodability up to a sentinel character: a list that avoids the
sentinel, followed by the sentinel, determines both parts. -/
theorem sentinel_split {c : Char} :
    ∀ {l1 l2 a b : List Char}, c ∉ l1 → c ∉ l2 →
      l1 ++ c :: a = l2 ++ c :: b → l1 = l2 ∧ a = b := by
  intro l1
  induction l1 with
  | nil =>
    intro l2 a b _ h2 h
    cases l2 with
    | nil => simpa using h
    | cons x t =>
      exfalso
      simp only [List.nil_append, List.cons_append, List.cons.injEq] at h
      exact h2 (by simp [h.1])
  | cons x t ih =>
    intro l2 a b h1 h2 h
    cases l2 with
    | nil =>
      exfalso
      simp only [List.nil_append, List.cons_append, List.cons.injEq] at h
      exact h1 (by simp [h.1])
    | cons y u =>
      simp only [List.cons_append, List.cons.injEq] at h
      have ht := ih (fun hm => h1 (by simp [hm])) (fun hm => h2 (by simp [hm])) h.2
      exact ⟨by rw [h.1, ht.1], ht.2⟩

/-! ## Splitting the payload chunks -/

theorem strChunk_split {s1 s2 : String} {y1 y2 : List Char}
    (h : strChunk s1 ++ y1 = strChunk s2 ++ y2) : s1 = s2 ∧ y1 = y2 := by
  unfold strChunk at h
  simp only [List.cons_append, List.append_assoc, List.singleton_append] at h
  injection h with h1 h2
  obtain ⟨hd, hr⟩ := escChars_split _ _ _ _ h2
  exact ⟨String.ext hd, hr⟩

theorem optStrChunk_split {o1 o2 : Option String} {y1 y2 : List Char}
    (h : optStrChunk o1 ++ y1 = optStrChunk o2 ++ y2) : o1 = o2 ∧ y1 = y2 := by
  cases o1 with
  | none =>
    cases o2 with
    | none => exact ⟨rfl, List.append_cancel_left h⟩
    | some s2 =>
      exfalso
      simp only [optStrChunk, List.append_assoc] at h
      injection h with h1 _
      exact absurd h1 (by decide)
  | some s1 =>
    cases o2 with
    | none =>
      exfalso
      simp only [optStrChunk, List.append_assoc] at h
      injection h with h1 _
      exact absurd h1 (by decide)
    | some s2 =>
      simp only [optStrChunk, List.append_assoc, List.singleton_append] at h
      replace h := List.append_cancel_left h
      obtain ⟨hs, ht⟩ := strChunk_split h
      injection ht with _ h2
      exact ⟨by rw [hs], h2⟩

theorem rpcChunk_split {s1 s2 : RpcStatus} {r1 r2 : List Char}
    (h : rpcChunk s1 ++ r1 = rpcChunk s2 ++ r2) : s1 = s2 ∧ r1 = r2 := by
  unfold rpcChunk at h
  simp only [List.append_assoc] at h
  replace h := List.append_cancel_left h
  replace h : natChars s1.status ++
      (',' :: (" details: ".data ++ (optStrChunk s1.details ++ (" \x7d".data ++ r1)))) =
      natChars s2.status ++
      (',' :: (" details: ".data ++ (optStrChunk s2.details ++ (" \x7d".data ++ r2)))) := h
  obtain ⟨hn, ht⟩ := sentinel_split (natChars_no_comma _) (natChars_no_comma _) h
  replace ht := List.append_cancel_left ht
  obtain ⟨hd, ht2⟩ := optStrChunk_split ht
  replace ht2 := List.append_cancel_left ht2
  cases s1
  cases s2
  simp only [RpcStatus.mk.injEq]
  exact ⟨⟨natChars_inj hn, hd⟩, ht2⟩

theorem optRpcChunk_split {o1 o2 : Option RpcStatus} {y1 y2 : List Char}
    (h : optRpcChunk o1 ++ y1 = optRpcChunk o2 ++ y2) : o1 = o2 ∧ y1 = y2 := by
  cases o1 with
  | none =>
    cases o2 with
    | none => exact ⟨rfl, List.append_cancel_left h⟩
    | some s2 =>
      exfalso
      simp only [optRpcChunk, List.append_assoc] at h
      injection h with h1 _
      exact absurd h1 (by decide)
  | some s1 =>
    cases o2 with
    | none =>
      exfalso
      simp only [optRpcChunk, List.append_assoc] at h
      injection h with h1 _
      exact absurd h1 (by decide)
    | some s2 =>
      simp only [optRpcChunk, List.append_assoc, List.singleton_append] at h
      replace h := List.append_cancel_left h
      obtain ⟨hs, ht⟩ := rpcChunk_split h
      injection ht with _ h2
      exact ⟨by rw [hs], h2⟩

theorem GrpcCallError.render_inj : ∀ {g1 g2 : GrpcCallError},
    g1.render = g2.render → g1 = g2 := by
  intro g1 g2
  cases g1 <;> cases g2 <;>
    first
      | (intro _; rfl)
      | (intro h; exact absurd h (by decide))

/-- The first five characters of each variant's rendering: a
variant-discriminating key (no two variants share one). -/
def tag5 : Error → List Char
  | .Codec _ => "Codec".data
  | .CallFailure _ => "CallF".data
  | .RpcFailure _ => "RpcFa".data
  | .RpcFinished _ => "RpcFi".data
  | .RemoteStopped => "Remot".data
  | .ShutdownFailed => "Shutd".data
  | .BindFail _ _ => "BindF".data
  | .QueueShutdown => "Queue".data
  | .GoogleAuthenticationFailed => "Googl".data
  | .InvalidMetadata _ => "Inval".data

theorem debug_take5 (e : Error) : e.debugChars.take 5 = tag5 e := by
  cases e <;> rfl

theorem displayRender_view (e : Error) : e.view.displayRender = e.displayRender := by
  cases e <;> rfl

/-- C4 (amended): the display rendering is injective with respect to
(variant, payload) up to the `Debug` text of the `Codec` cause: two
`Error` values render alike precisely when they agree on variant and
payload, except that two `Codec` values compare by the `Debug` rendering
of their boxed causes (the rendering cannot see more of a type-erased
cause than what it prints). For every non-`Codec` pair, equal renderings
imply equal values. -/
theorem display_inj_view (e1 e2 : Error) :
    e1.displayRender = e2.displayRender ↔ e1.view = e2.view := by
  constructor
  · intro h
    replace h : e1.debugChars = e2.debugChars := congrArg String.data h
    cases e1 <;> cases e2 <;>
      first
        | rfl
        | (have ht := (debug_take5 _).symm.trans
             ((congrArg (List.take 5) h).trans (debug_take5 _));
           simp only [tag5] at ht;
           exact absurd ht (by decide))
        | (simp only [Error.debugChars] at h;
           have hc := String.ext (List.append_inj' (List.append_cancel_left h) rfl).1;
           simp only [Error.view];
           rw [hc];
           done)
        | (simp only [Error.debugChars] at h;
           have hg := GrpcCallError.render_inj
             (String.ext (List.append_inj' (List.append_cancel_left h) rfl).1);
           simp only [Error.view];
           rw [hg];
           done)
        | (simp only [Error.debugChars] at h;
           have hs := (rpcChunk_split (List.append_cancel_left h)).1;
           simp only [Error.view];
           rw [hs];
           done)
        | (simp only [Error.debugChars] at h;
           have ho := (optRpcChunk_split (List.append_cancel_left h)).1;
           simp only [Error.view];
           rw [ho];
           done)
        | (simp only [Error.debugChars] at h;
           obtain ⟨hh, ht⟩ := strChunk_split (List.append_cancel_left h);
           replace ht := List.append_cancel_left ht;
           have hp := natChars_inj (sentinel_split (natChars_no_rparen _) (natChars_no_rparen _) ht).1;
           simp only [Error.view];
           rw [hh, hp];
           done)
        | (simp only [Error.debugChars] at h;
           obtain ⟨hm, -⟩ := strChunk_split (List.append_cancel_left h);
           simp only [Error.view];
           rw [hm];
           done)
  · intro h
    calc e1.displayRender = e1.view.displayRender := (displayRender_view e1).symm
      _ = e2.view.displayRender := by rw [h]
      _ = e2.displayRender := displayRender_view e2


/-! ## The claims -/

/-- C1 (counterexample): the spec's table maps `QueueShutdown` to
"completion queue shutdown", but the code returns
"gRPC completion queue shutdown": the claimed string is not the one the
code produces at this concrete input. -/
theorem description_queue_cex :
    Error.QueueShutdown.description = "gRPC completion queue shutdown" ∧
    decide (Error.QueueShutdown.description = "completion queue shutdown") = false :=
  ⟨rfl, by decide⟩

/-- C1 (amended): `description` returns exactly one fixed string per
variant tag, but six of the ten strings carry a `gRPC ` prefix over the
spec's table: `Codec` maps to "gRPC Codec Error", `CallFailure` to
"gRPC Call Error", `RpcFailure` to "gRPC Request Error", `RpcFinished` to
"gRPC Finish Error", `BindFail` to "gRPC Bind Error", `QueueShutdown` to
"gRPC completion queue shutdown", while `RemoteStopped`, `ShutdownFailed`,
`GoogleAuthenticationFailed` and `InvalidMetadata` match the spec's
strings exactly. -/
theorem description_strings :
    (∀ c, (Error.Codec c).description = "gRPC Codec Error") ∧
    (∀ g, (Error.CallFailure g).description = "gRPC Call Error") ∧
    (∀ s, (Error.RpcFailure s).description = "gRPC Request Error") ∧
    (∀ o, (Error.RpcFinished o).description = "gRPC Finish Error") ∧
    Error.RemoteStopped.description = "Remote is stopped." ∧
    Error.ShutdownFailed.description = "Failed to shutdown." ∧
    (∀ h p, (Error.BindFail h p).description = "gRPC Bind Error") ∧
    Error.QueueShutdown.description = "gRPC completion queue shutdown" ∧
    Error.GoogleAuthenticationFailed.description =
      "Could not create google default credentials." ∧
    (∀ m, (Error.InvalidMetadata m).description = "invalid format of metadata") :=
  ⟨fun _ => rfl, fun _ => rfl, fun _ => rfl, fun _ => rfl, rfl, rfl,
    fun _ _ => rfl, rfl, rfl, fun _ => rfl⟩

/-- C2: `cause` returns a present nested cause exactly for the `Codec`
variant; every other variant yields `none`. -/
theorem cause_some_iff_codec (e : Error) :
    (e.cause).isSome = true ↔ ∃ c, e = Error.Codec c := by
  cases e <;> simp [Error.cause]

/-- C3: each codec-error conversion produces the `Codec` variant with the
boxed original as its immediate cause, and boxing loses nothing: the
boxed cause renders (both `Display` and `Debug`) exactly as the original
error does. -/
theorem from_codec_error_lossless :
    (∀ e : ProtobufError, Error.fromProtobuf e = Error.Codec e.box ∧
      (Error.fromProtobuf e).cause = some e.box ∧
      e.box.displayRepr = e.displayRepr ∧ e.box.debugRepr = e.debugRepr) ∧
    (∀ e : DecodeError, Error.fromDecode e = Error.Codec e.box ∧
      (Error.fromDecode e).cause = some e.box ∧
      e.box.displayRepr = e.displayRepr ∧ e.box.debugRepr = e.debugRepr) :=
  ⟨fun _ => ⟨rfl, rfl, rfl, rfl⟩, fun _ => ⟨rfl, rfl, rfl, rfl⟩⟩

/-- C4 (counterexample): two `Codec` values whose boxed causes are
distinct trait objects (different `Display` texts) but print the same
`Debug` text render identically, so the display rendering is not
injective on (variant, payload). -/
theorem display_injective_cex :
    Error.displayRender (Error.Codec ⟨"codec failure", "decode failed"⟩) =
      Error.displayRender (Error.Codec ⟨"codec failure", "eof reached"⟩) ∧
    decide (Error.Codec ⟨"codec failure", "decode failed"⟩ =
      Error.Codec ⟨"codec failure", "eof reached"⟩) = false :=
  ⟨rfl, by decide⟩

/-- C5: `description` is a lookup on the variant tag alone: within each
payload-carrying variant, any two payloads give the same description. -/
theorem description_ignores_payload :
    (∀ c1 c2, (Error.Codec c1).description = (Error.Codec c2).description) ∧
    (∀ g1 g2, (Error.CallFailure g1).description = (Error.CallFailure g2).description) ∧
    (∀ s1 s2, (Error.RpcFailure s1).description = (Error.RpcFailure s2).description) ∧
    (∀ o1 o2, (Error.RpcFinished o1).description = (Error.RpcFinished o2).description) ∧
    (∀ h1 p1 h2 p2, (Error.BindFail h1 p1).description = (Error.BindFail h2 p2).description) ∧
    (∀ m1 m2, (Error.InvalidMetadata m1).description = (Error.InvalidMetadata m2).description) :=
  ⟨fun _ _ => rfl, fun _ _ => rfl, fun _ _ => rfl, fun _ _ => rfl,
    fun _ _ _ _ => rfl, fun _ _ => rfl⟩

/-- C6 (counterexample): both `RpcFinished` forms have description
"gRPC Finish Error", not the spec's "Finish Error". -/
theorem rpcFinished_desc_cex :
    (Error.RpcFinished none).description = "gRPC Finish Error" ∧
    decide ((Error.RpcFinished none).description = "Finish Error") = false :=
  ⟨rfl, by decide⟩

/-- C6 (amended): `RpcFinished` with no status renders differently from
`RpcFinished` with any concrete status, and both carry the description
"gRPC Finish Error" (the spec's "Finish Error" with the code's `gRPC `
prefix). -/
theorem rpcFinished_distinct_and_desc :
    (∀ s : RpcStatus, decide ((Error.RpcFinished none).displayRender =
        (Error.RpcFinished (some s)).displayRender) = false) ∧
    (Error.RpcFinished none).description = "gRPC Finish Error" ∧
    (∀ s, (Error.RpcFinished (some s)).description = "gRPC Finish Error") := by
  refine ⟨?_, rfl, fun _ => rfl⟩
  intro s
  rw [decide_eq_false_iff_not]
  intro hEq
  have h : (Error.RpcFinished none).debugChars = (Error.RpcFinished (some s)).debugChars :=
    congrArg String.data hEq
  simp only [Error.debugChars] at h
  replace h := List.append_cancel_left h
  exact absurd (optRpcChunk_split h).1 (by simp)

/-- C7 (counterexample): `BindFail("0.0.0.0", 50051)` has description
"gRPC Bind Error", not the spec's "Bind Error". -/
theorem bindFail_desc_cex :
    (Error.BindFail "0.0.0.0" 50051).description = "gRPC Bind Error" ∧
    decide ((Error.BindFail "0.0.0.0" 50051).description = "Bind Error") = false :=
  ⟨rfl, by decide⟩

/-- C7 (amended): `BindFail("0.0.0.0", 50051)` has description
"gRPC Bind Error" (spec's string with the `gRPC ` prefix), and its display
rendering contains both the host string "0.0.0.0" and the decimal
rendering of the port 50051. -/
theorem bindFail_scenario :
    (Error.BindFail "0.0.0.0" 50051).description = "gRPC Bind Error" ∧
    containsSub "0.0.0.0".data (Error.BindFail "0.0.0.0" 50051).displayRender.data = true ∧
    containsSub (natChars 50051) (Error.BindFail "0.0.0.0" 50051).displayRender.data = true := by
  refine ⟨rfl, ?_, ?_⟩ <;> decide

/-- C8: with `source` left to the trait default (the TODO in the impl
block), the source accessor returns `None` on every value, while the
shallow single-level `cause` accessor still returns the boxed cause for
`Codec`. -/
theorem source_none_cause_shallow :
    (∀ e : Error, e.source = none) ∧ (∀ c, (Error.Codec c).cause = some c) :=
  ⟨fun _ => rfl, fun _ => rfl⟩

/-- C10: the display rendering is character-for-character the debug
rendering, for every value: `impl Display` delegates to `Debug`. -/
theorem display_eq_debug (e : Error) : e.displayRender = e.debugRender := rfl

end GrpcErrSpec
